import Mathlib

/-!
Verification development for the vmnetfs demand-paged chunk I/O engine
(cmusatyalab/vmnetx, directory vmnetfs/).  Each C function named in a doc
comment below is embedded as an executable Lean definition; machine
integers are modelled as Nat (the quantities involved — chunk indices,
byte counts, counters — stay far below 2^64 in every statement proved
here, so wraparound never matters).  Stateful code is modelled by explicit
state passing, and the concurrent parts (the chunk lock table, the bitmap
change streams) by step relations whose steps are the code's mutex-held
regions.
-/

namespace Vmnetfs

/-- Error codes of enum VMNetFSIOError (vmnetfs-private.h) together with the
end-of-file code io.c raises in constrain_io. -/
inductive IoError where
  | prematureEof
  | invalidCache
  | interrupted
  | eof
  deriving DecidableEq

/-! ### Bitmap (bitmap.c)

The bitmap is the uint8 array `map->bits` of `map->allocated_bytes` bytes,
modelled as a `List Nat` whose length is `allocated_bytes`. -/

/-- GLib g_bit_storage: the number of bits used to hold the value;
g_bit_storage 0 = 1 (its do-while loop runs at least once). -/
def g_bit_storage (n : Nat) : Nat :=
  if n = 0 then 1 else n.size

/-- bitmap.c _vmnetfs_bit_set, lines 69-84: the bits update performed under
the map lock.  When the bit lies beyond the allocated bytes, the store grows
to the next power of two, `1 << g_bit_storage((bit + 7) / 8)` bytes, the new
region zero-filled; then the bit's byte gets the bit or-ed in.  (The stream
publish of line 86, which runs after the unlock, is modelled separately by
`BitStep`.) -/
def bit_set (bits : List Nat) (bit : Nat) : List Nat :=
  let bits :=
    if 8 * bits.length ≤ bit then
      bits ++ List.replicate (2 ^ g_bit_storage ((bit + 7) / 8) - bits.length) 0
    else bits
  bits.set (bit / 8) (bits.getD (bit / 8) 0 ||| 2 ^ (bit % 8))

/-- bitmap.c _vmnetfs_bit_test, lines 90-100: bits beyond the allocated bytes
read as 0. -/
def bit_test (bits : List Nat) (bit : Nat) : Bool :=
  if bit < 8 * bits.length then (bits.getD (bit / 8) 0).testBit (bit % 8)
  else false

/-- bitmap.c populate_stream, lines 31-49: the byte-major, bit-minor walk
emits every currently-set bit index in increasing order. -/
def snapshot (bits : List Nat) : List Nat :=
  (List.range (8 * bits.length)).filter (fun b => bit_test bits b)

/-! ### Bitmap change streams (C9)

Modelled from the spec: stream.c is not among the sources.  Spec 4.1 and 4.7:
a subscriber first receives a snapshot of every currently-set bit (bitmap.c
populate_stream, run while holding the map lock), and _vmnetfs_bit_set
publishes each newly-set bit index to every stream of the group.  In
bitmap.c the publish (line 86) runs after the map lock is released (line
84), so it is a separate atomic step from the bits update. -/
structure BitmapSys where
  bits : List Nat
  pending : List Nat
  streams : List (List Nat)
  deriving DecidableEq

/-- The atomic steps of the bitmap/stream system: `mark` is lines 73-84 of
_vmnetfs_bit_set for a newly-set bit (the publish becomes pending),
`markOld` the same lines for an already-set bit (is_new false: no publish),
`publish` is line 86 (the pending stream_group_write delivers the index to
every current subscriber), `subscribe` is a stream creation running
populate_stream under the map lock. -/
inductive BitStep : BitmapSys → BitmapSys → Prop where
  | mark (s : BitmapSys) (b : Nat) : bit_test s.bits b = false →
      BitStep s ⟨bit_set s.bits b, b :: s.pending, s.streams⟩
  | markOld (s : BitmapSys) (b : Nat) : bit_test s.bits b = true →
      BitStep s ⟨bit_set s.bits b, s.pending, s.streams⟩
  | publish (s : BitmapSys) (b : Nat) : b ∈ s.pending →
      BitStep s ⟨s.bits, s.pending.erase b, s.streams.map (fun t => t ++ [b])⟩
  | subscribe (s : BitmapSys) :
      BitStep s ⟨s.bits, s.pending, snapshot s.bits :: s.streams⟩

/-- Reachability from the fresh bitmap (no bits, no pending publish, no
subscribers). -/
def BitReachable : BitmapSys → Prop :=
  Relation.ReflTransGen BitStep ⟨[], [], []⟩

/-! ### Transport (transport.c) -/

/-- The GError values the transport paths produce: the two
VMNetFSTransportError codes, and VMNETFS_IO_ERROR_INTERRUPTED which fetch
raises for CURLE_ABORTED_BY_CALLBACK. -/
inductive GErr where
  | transportFatal
  | transportNetwork
  | ioInterrupted
  deriving DecidableEq

/-- The libcurl result codes distinguished by the switch in transport.c fetch
(lines 488-520); `other` stands for every code of its default case. -/
inductive CurlCode where
  | ok
  | couldntResolveProxy
  | couldntResolveHost
  | couldntConnect
  | httpReturnedError
  | operationTimedout
  | gotNothing
  | sendError
  | recvError
  | badContentEncoding
  | abortedByCallback
  | other
  deriving DecidableEq

/-- transport.c fetch, lines 482-524: the (return value, GError) a single
fetch attempt produces after curl_easy_perform, given conn->err as left by
the header/write/progress callbacks, the curl code, the delivered byte count
conn->offset, and the requested length.  Note the CURLE_OK case faithfully:
when the transfer delivered fewer bytes than requested it records the
"short read from server" FATAL error in *err, yet still executes
`ret = true`. -/
def fetch_result (connErr : Option GErr) (code : CurlCode) (delivered length : Nat) :
    Bool × Option GErr :=
  match connErr with
  | some e => (false, some e)
  | none =>
    match code with
    | .ok => (true, if delivered ≠ length then some .transportFatal else none)
    | .abortedByCallback => (false, some .ioInterrupted)
    | .other => (false, some .transportFatal)
    | _ => (false, some .transportNetwork)

/-- transport.c _vmnetfs_transport_fetch, lines 528-555, as a function of the
outcome of each successive fetch call: `attempt i` is the (return value,
GError) of the i-th call.  The loop makes at most `fuel` = TRANSPORT_TRIES
(= 5) iterations; at the top of an iteration, when my_err holds an error it
is cleared and the thread sleeps TRANSPORT_RETRY_DELAY seconds (counted in
the second component); a true return from fetch returns true at once (the
GError out-parameter untouched); a non-NETWORK error breaks out; otherwise
the loop continues, and after the loop the last error is propagated.
Result: (number of fetch calls made, sleeps performed, return value,
propagated error). -/
def transport_fetch_iter (attempt : Nat → Bool × Option GErr) :
    Nat → Nat → Nat → Option GErr → Nat × Nat × Bool × Option GErr
  | 0, i, sleeps, myErr => (i, sleeps, false, myErr)
  | fuel + 1, i, sleeps, myErr =>
    let sleeps := if myErr.isSome then sleeps + 1 else sleeps
    match attempt i with
    | (true, _) => (i + 1, sleeps, true, none)
    | (false, e) =>
      if e = some GErr.transportNetwork then
        transport_fetch_iter attempt fuel (i + 1) sleeps e
      else (i + 1, sleeps, false, e)

/-- transport.c _vmnetfs_transport_fetch: the retry loop started with
i = 0, no sleeps, my_err = NULL and TRANSPORT_TRIES = 5. -/
def transport_fetch (attempt : Nat → Bool × Option GErr) :
    Nat × Nat × Bool × Option GErr :=
  transport_fetch_iter attempt 5 0 0 none

/-- transport.c _vmnetfs_transport_fetch_stream_once, lines 557-568: a single
call to fetch, no retry. -/
def transport_fetch_stream_once (attempt : Nat → Bool × Option GErr) :
    Bool × Option GErr :=
  attempt 0

/-! ### Pristine store directory scan (ll-pristine.c) -/

/-- ll-pristine.c CHUNKS_PER_DIR. -/
def CHUNKS_PER_DIR : Nat := 4096

/-- ll-pristine.c get_dir_num, lines 39-42: the bucket directory a chunk
belongs to, `chunk / 4096 * 4096`. -/
def get_dir_num (chunk : Nat) : Nat :=
  chunk / CHUNKS_PER_DIR * CHUNKS_PER_DIR

/-- GLib g_ascii_isspace: the six ASCII whitespace characters, the ones
g_parse_long_long skips at the front of a number. -/
def g_ascii_isspace (c : Char) : Bool :=
  c = ' ' || c = '\t' || c = '\n' || c = '\x0b' || c = '\x0c' || c = '\r'

/-- ll-pristine.c lines 70-71: `chunk = g_ascii_strtoull(file, &endptr, 10)`
combined with the malformedness test `*file == 0 || *endptr != 0`, following
glib's g_parse_long_long: leading ASCII whitespace is skipped, then one
optional '+' or '-' sign, then base-10 digits.  When no digit is consumed,
endptr is reset to the start of the string, so the combined test accepts a
name exactly when it is whitespace*, an optional sign, and one or more
digits with nothing after them (the empty name is rejected by `*file == 0`
and equally by having no digit).  The value saturates at
G_MAXUINT64 = 2^64 - 1 on overflow (errno ERANGE, which the caller never
checks), and a '-' sign negates the result as a uint64, i.e. modulo
2^64 — so "-0" yields 0. -/
def parse_u64 (name : List Char) : Option Nat :=
  let afterSpace := name.dropWhile g_ascii_isspace
  let signDigits :=
    match afterSpace with
    | '-' :: r => (true, r)
    | '+' :: r => (false, r)
    | r => (false, r)
  if signDigits.2 ≠ [] ∧ signDigits.2.all Char.isDigit then
    let v := min (signDigits.2.foldl (fun a c => a * 10 + (c.toNat - 48)) 0)
      (2 ^ 64 - 1)
    some (if signDigits.1 then (2 ^ 64 - v) % 2 ^ 64 else v)
  else none

/-- ll-pristine.c set_present_from_directory, lines 55-82: walk the file
names of one bucket directory, with `chunks = ceil(initial_size/chunk_size)`
(line 64) and `dir_num` the bucket's own number; a name is rejected as
INVALID_CACHE when it does not parse, when `chunk > chunks` (line 71: note
the strict >, which lets a name equal to the chunk count through), or when
it is in the wrong bucket.  On success, the list of chunk indices whose
presence bit gets set. -/
def set_present_from_directory (chunks dir_num : Nat) :
    List (List Char) → Except IoError (List Nat)
  | [] => .ok []
  | f :: rest =>
    match parse_u64 f with
    | none => .error .invalidCache
    | some chunk =>
      if chunks < chunk ∨ dir_num ≠ get_dir_num chunk then .error .invalidCache
      else
        match set_present_from_directory chunks dir_num rest with
        | .error e => .error e
        | .ok l => .ok (chunk :: l)

/-- The acceptance test claim C4 reads into the scan, with the amended range
check: the name parses as a uint64 whose value is at most the chunk count
(the code accepts `chunk = chunks`, one past the last valid index) and lies
in its own bucket directory. -/
def NameOk (chunks dir_num : Nat) (name : List Char) : Prop :=
  ∃ c, parse_u64 name = some c ∧ c ≤ chunks ∧ dir_num = get_dir_num c

/-! ### I/O engine state (io.c, ll-pristine.c, spec 4.4)

For the engine-level claims the three bitmaps are abstracted to predicates
over chunk indices (the byte-exact bitmap model above serves the bitmap
claims). -/

/-- Image configuration, the immutable fields of struct vmnetfs_image used
by the chunk I/O paths. -/
structure Image where
  chunk_size : Nat
  initial_size : Nat
  segment_size : Nat

/-- The mutable per-image storage state the chunk I/O engine touches:
the present/modified/accessed bitmaps; `pristineFile c` the byte content of
the pristine cache file of chunk c (meaningful when present c); `overlay`
the sparse overlay file, one byte per absolute file offset with holes
reading 0; and the chunk_fetches / chunk_dirties counters. -/
structure IoState where
  present : Nat → Bool
  modified : Nat → Bool
  accessed : Nat → Bool
  pristineFile : Nat → List Nat
  overlay : Nat → Nat
  chunk_fetches : Nat
  chunk_dirties : Nat

/-- io.c _vmnetfs_bit_set(img->accessed_map, chunk). -/
def IoState.setAccessed (s : IoState) (chunk : Nat) : IoState :=
  { s with accessed := fun c => if c = chunk then true else s.accessed c }

/-- io.c constrain_io, lines 183-200: fail EOF when the start is at or past
the image size, else clamp the length to `image_size - chunk * chunk_size`
(note: the intra-chunk offset is not subtracted).  The asserts
`offset < chunk_size` and `offset + length <= chunk_size` are hypotheses of
the theorems below. -/
def constrain_io (img : Image) (image_size chunk offset length : Nat) :
    Except IoError Nat :=
  if image_size ≤ chunk * img.chunk_size + offset then .error .eof
  else .ok (min (image_size - chunk * img.chunk_size) length)

/-- ll-pristine.c _vmnetfs_ll_pristine_read_chunk, lines 130-154, together
with _vmnetfs_safe_pread (util.c lines 48-69): pread `length` bytes at
`offset` from the chunk's cache file, PREMATURE_EOF when the file is too
short.  Local I/O is modelled as reliable; the function also asserts
`chunk*chunk_size + offset + length <= initial_size`, checked separately at
the claim C2 failing input. -/
def ll_pristine_read_chunk (s : IoState) (chunk offset length : Nat) :
    Except IoError (List Nat) :=
  let file := s.pristineFile chunk
  if offset + length ≤ file.length then .ok ((file.drop offset).take length)
  else .error .prematureEof

/-- ll-pristine.c _vmnetfs_ll_pristine_write_chunk, lines 156-183: atomically
replace the chunk's cache file with the data and set its presence bit (local
I/O modelled as reliable). -/
def ll_pristine_write_chunk (s : IoState) (data : List Nat) (chunk : Nat) :
    IoState :=
  { s with
    pristineFile := fun c => if c = chunk then data else s.pristineFile c,
    present := fun c => if c = chunk then true else s.present c }

/-- Modelled from the spec: ll-modified.c is not among the sources.  Spec
4.4: read(C, offset, length) preads from the overlay file at
`C*chunk_size + offset`, trusting the chunk was previously written. -/
def ll_modified_read_chunk (img : Image) (s : IoState)
    (chunk offset length : Nat) : List Nat :=
  (List.range length).map fun i => s.overlay (chunk * img.chunk_size + offset + i)

/-- Modelled from the spec: ll-modified.c is not among the sources.  Spec
4.4: write(C, offset, length, data) pwrites data at `C*chunk_size + offset`
and on success ensures modified[C] is set. -/
def ll_modified_write_chunk (img : Image) (s : IoState) (data : List Nat)
    (chunk offset length : Nat) : IoState :=
  { s with
    overlay := fun a =>
      if chunk * img.chunk_size + offset ≤ a ∧
          a < chunk * img.chunk_size + offset + length then
        data.getD (a - (chunk * img.chunk_size + offset)) 0
      else s.overlay a,
    modified := fun c => if c = chunk then true else s.modified c }

/-- io.c fetch_data, lines 116-146, with the transport modelled as the
function `origin` from absolute byte offset to byte (the successful-fetch
case; the transport failure paths are modelled by fetch_result above).
Splitting the range across segment URLs changes only the requests issued,
not the bytes delivered, so the result is origin[start .. start+count). -/
def fetch_data (origin : Nat → Nat) (start count : Nat) : List Nat :=
  (List.range count).map fun i => origin (start + i)

/-- io.c read_chunk_unlocked, lines 202-237: constrain the request, set the
accessed bit, then serve from the overlay when modified, from the pristine
store when present, and otherwise fetch the whole chunk (incrementing
chunk_fetches), persist it to the pristine store (which sets the presence
bit) and serve from the pristine store.  Returns the bytes read (or the
error) and the state afterwards. -/
def read_chunk_unlocked (img : Image) (origin : Nat → Nat) (s : IoState)
    (image_size chunk offset length : Nat) :
    Except IoError (List Nat) × IoState :=
  match constrain_io img image_size chunk offset length with
  | .error e => (.error e, s)
  | .ok length =>
    let s := s.setAccessed chunk
    if s.modified chunk then
      (.ok (ll_modified_read_chunk img s chunk offset length), s)
    else if s.present chunk then
      (ll_pristine_read_chunk s chunk offset length, s)
    else
      let start := chunk * img.chunk_size
      let count := min (image_size - start) img.chunk_size
      let s := { s with chunk_fetches := s.chunk_fetches + 1 }
      let s := ll_pristine_write_chunk s (fetch_data origin start count) chunk
      (ll_pristine_read_chunk s chunk offset length, s)

/-- io.c _vmnetfs_io_write_chunk, lines 256-295: the body run under the
chunk lock (the lock itself is modelled by chunk_trylock below).  Constrain,
set the accessed bit, and when the chunk is clean perform the copy-on-write:
materialize the full chunk through read_chunk_unlocked (incrementing
chunk_dirties) and write it to the overlay at offset 0; finally apply the
caller's data to the overlay. -/
def io_write_chunk_locked (img : Image) (origin : Nat → Nat) (s : IoState)
    (image_size : Nat) (data : List Nat) (chunk offset length : Nat) :
    Except IoError Unit × IoState :=
  match constrain_io img image_size chunk offset length with
  | .error e => (.error e, s)
  | .ok length =>
    let s := s.setAccessed chunk
    if s.modified chunk then
      (.ok (), ll_modified_write_chunk img s data chunk offset length)
    else
      let count := min (image_size - chunk * img.chunk_size) img.chunk_size
      let s := { s with chunk_dirties := s.chunk_dirties + 1 }
      match read_chunk_unlocked img origin s image_size chunk 0 count with
      | (.error e, s) => (.error e, s)
      | (.ok buf, s) =>
        let s := ll_modified_write_chunk img s buf chunk 0 count
        (.ok (), ll_modified_write_chunk img s data chunk offset length)

/-- util.c _vmnetfs_cursor_chunk, lines 104-115: the (chunk, intra-chunk
offset, slice length) of the next per-chunk slice of an I/O of
(start, count) once io_offset bytes have completed, assuming an
infinite-size image. -/
def cursor_chunk (img : Image) (start count io_offset : Nat) :
    Nat × Nat × Nat :=
  let position := start + io_offset
  let chunk := position / img.chunk_size
  let offset := position - chunk * img.chunk_size
  (chunk, offset, min (img.chunk_size - offset) (count - io_offset))

/-! ### Chunk lock table (io.c) -/

/-- io.c struct chunk_lock: the busy flag and waiter count of one chunk's
lock table entry. -/
structure ChunkLock where
  busy : Bool
  waiters : Nat
  deriving DecidableEq

/-- One _vmnetfs_cond_wait inside chunk_trylock: the value the wait returns
(true when the FUSE request was interrupted) and cl->busy as observed once
the caller holds the table mutex again. -/
structure WaitEvent where
  interrupted : Bool
  busyAfter : Bool
  deriving DecidableEq

/-- io.c chunk_trylock, lines 71-72:
`while (cl->busy && !_vmnetfs_cond_wait(cl->available, cs->lock)) ;`.
Returns cl->busy at loop exit, or none when the event trace ends with the
caller still blocked in the wait (no return happens). -/
def wait_loop : Bool → List WaitEvent → Option Bool
  | false, _ => some false
  | true, [] => none
  | true, e :: rest =>
    if e.interrupted then some e.busyAfter else wait_loop e.busyAfter rest

/-- io.c chunk_trylock, lines 58-94, for one chunk: `entry` the chunk's
table entry (none when absent), `events` the condvar wait outcomes,
`tableSize` cs->image_size, `wantSize` whether the caller passed an
image_size out-parameter (which is first zeroed, then filled only on
success).  Returns none when the caller never stops waiting, otherwise
(return value, the entry afterwards, the out-parameter's final value).
When the wait loop exits with the entry still busy the caller was
interrupted and gives up (waiters is decremented back); when it exits with
the entry free — even when the exit was an interrupt — the caller takes the
lock and reports success. -/
def chunk_trylock (entry : Option ChunkLock) (events : List WaitEvent)
    (tableSize : Nat) (wantSize : Bool) :
    Option (Bool × ChunkLock × Option Nat) :=
  match entry with
  | none => some (true, ⟨true, 0⟩, if wantSize then some tableSize else none)
  | some cl =>
    match wait_loop cl.busy events with
    | none => none
    | some busyExit =>
      if busyExit then
        some (false, ⟨true, cl.waiters⟩, if wantSize then some 0 else none)
      else
        some (true, ⟨true, cl.waiters⟩, if wantSize then some tableSize else none)

/-- The chunk lock table: the GHashTable chunk_locks, as a map from chunk
index to entry. -/
def LockTable : Type := Nat → Option ChunkLock

/-- Pointwise update of the table at one chunk. -/
def LockTable.update (t : LockTable) (c : Nat) (v : Option ChunkLock) :
    LockTable :=
  fun x => if x = c then v else t x

/-- The atomic table-mutex regions of io.c chunk_trylock (lines 58-94) and
chunk_unlock (lines 96-112), as table transitions.  acquireNew: absent entry
inserted busy (lines 82-88).  acquireIdle: present non-busy entry taken in
one region (waiters++ , loop falls through, busy := true, waiters--).
beginWait: a caller finds the entry busy, increments waiters and blocks.
wakeAcquire: a waiter wakes to a free entry, sets busy and decrements
waiters.  wakeInterrupted: a waiter is interrupted while the entry is still
busy and decrements waiters (chunk_trylock's failure path).  release
(chunk_unlock): when waiters remain, clear busy and signal; otherwise
destroy the entry. -/
inductive LockStep : LockTable → LockTable → Prop where
  | acquireNew (t : LockTable) (c : Nat) : t c = none →
      LockStep t (t.update c (some ⟨true, 0⟩))
  | acquireIdle (t : LockTable) (c : Nat) (w : Nat) : t c = some ⟨false, w⟩ →
      LockStep t (t.update c (some ⟨true, w⟩))
  | beginWait (t : LockTable) (c : Nat) (w : Nat) : t c = some ⟨true, w⟩ →
      LockStep t (t.update c (some ⟨true, w + 1⟩))
  | wakeAcquire (t : LockTable) (c : Nat) (w : Nat) : t c = some ⟨false, w + 1⟩ →
      LockStep t (t.update c (some ⟨true, w⟩))
  | wakeInterrupted (t : LockTable) (c : Nat) (w : Nat) : t c = some ⟨true, w + 1⟩ →
      LockStep t (t.update c (some ⟨true, w⟩))
  | release (t : LockTable) (c : Nat) (cl : ChunkLock) : t c = some cl →
      LockStep t (t.update c
        (if cl.waiters = 0 then none else some ⟨false, cl.waiters⟩))

/-- Reachability from the empty lock table (chunk_state_new). -/
def LockReachable : LockTable → Prop :=
  Relation.ReflTransGen LockStep (fun _ => none)

/-! ### Concrete instances used by the claim C2 and C9 evaluations -/

/-- The claim C2 failing input's image: chunk_size 8, initial and current
image size 10 (so the final chunk holds 2 bytes). -/
def c2_img : Image := ⟨8, 10, 0⟩

/-- A fresh image state: nothing present, modified or accessed, empty cache,
all-holes overlay, zero counters. -/
def fresh_state : IoState :=
  ⟨fun _ => false, fun _ => false, fun _ => false, fun _ => [], fun _ => 0, 0, 0⟩

/-! ### Helper lemmas -/

lemma map_getD_range {α : Type} (l : List α) (d : α) :
    (List.range l.length).map (fun i => l.getD i d) = l := by
  apply List.ext_getElem
  · simp
  · intro i h1 h2
    simp [List.getD_eq_getElem?_getD, List.getElem?_eq_getElem h2]

lemma div8_lt_pow_storage (b : Nat) :
    b / 8 < 2 ^ g_bit_storage ((b + 7) / 8) := by
  unfold g_bit_storage
  by_cases h : (b + 7) / 8 = 0
  · have hb : b = 0 := by omega
    subst hb
    simp
  · rw [if_neg h]
    have h1 : b / 8 ≤ (b + 7) / 8 := Nat.div_le_div_right (by omega)
    exact lt_of_le_of_lt h1 (Nat.lt_size_self _)

lemma length_bit_set (bits : List Nat) (b : Nat) :
    (bit_set bits b).length =
      if 8 * bits.length ≤ b then 2 ^ g_bit_storage ((b + 7) / 8)
      else bits.length := by
  unfold bit_set
  split
  · next hres =>
    have hlen : bits.length ≤ b / 8 := by omega
    have hlt : b / 8 < 2 ^ g_bit_storage ((b + 7) / 8) := div8_lt_pow_storage b
    simp only [List.length_set, List.length_append, List.length_replicate]
    omega
  · simp [List.length_set]

lemma lt_8_length_bit_set (bits : List Nat) (b : Nat) :
    b < 8 * (bit_set bits b).length := by
  rw [length_bit_set]
  split
  · have := div8_lt_pow_storage b
    omega
  · omega

lemma getD_append_replicate_zero (bits : List Nat) (pad j : Nat) :
    (bits ++ List.replicate pad 0).getD j 0 = bits.getD j 0 := by
  rw [List.getD_eq_getElem?_getD, List.getD_eq_getElem?_getD]
  by_cases hj : j < bits.length
  · rw [List.getElem?_append_left hj]
  · rw [List.getElem?_append_right (by omega),
      List.getElem?_eq_none (l := bits) (by omega)]
    by_cases hp : j - bits.length < pad
    · rw [List.getElem?_replicate_of_lt hp]
      rfl
    · rw [List.getElem?_eq_none (by simp only [List.length_replicate]; omega)]

lemma getD_bit_set (bits : List Nat) (b j : Nat) :
    (bit_set bits b).getD j 0 =
      if j = b / 8 then bits.getD (b / 8) 0 ||| 2 ^ (b % 8)
      else bits.getD j 0 := by
  simp only [bit_set]
  by_cases hres : 8 * bits.length ≤ b
  · rw [if_pos hres]
    have h8 : b / 8 <
        (bits ++ List.replicate
          (2 ^ g_bit_storage ((b + 7) / 8) - bits.length) 0).length := by
      simp only [List.length_append, List.length_replicate]
      have := div8_lt_pow_storage b
      omega
    by_cases hj : j = b / 8
    · subst hj
      rw [if_pos rfl, List.getD_eq_getElem?_getD,
        List.getElem?_set_eq_of_lt _ h8, Option.getD_some,
        getD_append_replicate_zero]
    · rw [if_neg hj, List.getD_eq_getElem?_getD,
        List.getElem?_set_ne (by omega), ← List.getD_eq_getElem?_getD,
        getD_append_replicate_zero]
  · rw [if_neg hres]
    have hib : b / 8 < bits.length := by omega
    by_cases hj : j = b / 8
    · subst hj
      rw [if_pos rfl, List.getD_eq_getElem?_getD,
        List.getElem?_set_eq_of_lt _ hib, Option.getD_some]
    · rw [if_neg hj, List.getD_eq_getElem?_getD,
        List.getElem?_set_ne (by omega), ← List.getD_eq_getElem?_getD]

lemma getD_eq_zero_of_le (bits : List Nat) (j : Nat) (h : bits.length ≤ j) :
    bits.getD j 0 = 0 := by
  rw [List.getD_eq_getElem?_getD, List.getElem?_eq_none h]
  rfl

lemma bit_test_bit_set_self (bits : List Nat) (b : Nat) :
    bit_test (bit_set bits b) b = true := by
  unfold bit_test
  rw [if_pos (lt_8_length_bit_set bits b), getD_bit_set, if_pos rfl,
    Nat.testBit_lor]
  simp [Nat.testBit_two_pow_self]

lemma bit_test_bit_set_ne (bits : List Nat) (b b' : Nat) (h : b' ≠ b) :
    bit_test (bit_set bits b) b' = bit_test bits b' := by
  have hlen8 : bits.length ≤ (bit_set bits b).length := by
    rw [length_bit_set]
    split
    · have := div8_lt_pow_storage b
      omega
    · omega
  unfold bit_test
  by_cases hin : b' < 8 * (bit_set bits b).length
  · rw [if_pos hin, getD_bit_set]
    by_cases hj : b' / 8 = b / 8
    · have hbit : b' % 8 ≠ b % 8 := by omega
      rw [hj, if_pos rfl, Nat.testBit_lor,
        Nat.testBit_two_pow_of_ne (fun he => hbit he.symm), Bool.or_false]
      by_cases hl : b' < 8 * bits.length
      · rw [if_pos hl, ← hj]
      · rw [if_neg hl, ← hj, getD_eq_zero_of_le _ _ (by omega), Nat.zero_testBit]
    · rw [if_neg hj]
      by_cases hl : b' < 8 * bits.length
      · rw [if_pos hl]
      · rw [if_neg hl, getD_eq_zero_of_le _ _ (by omega), Nat.zero_testBit]
  · rw [if_neg hin, if_neg (by omega)]

lemma bit_test_true_mem_snapshot (bits : List Nat) (b : Nat)
    (h : bit_test bits b = true) : b ∈ snapshot bits := by
  have hb : b < 8 * bits.length := by
    by_contra hc
    rw [bit_test, if_neg (by omega)] at h
    exact Bool.noConfusion h
  simp only [snapshot, List.mem_filter, List.mem_range]
  exact ⟨hb, h⟩

lemma wait_loop_some_true (b : Bool) (events : List WaitEvent)
    (h : wait_loop b events = some true) :
    b = true ∧ ∃ e ∈ events, e.interrupted = true ∧ e.busyAfter = true := by
  induction events generalizing b with
  | nil =>
    cases b with
    | false => simp [wait_loop] at h
    | true => simp [wait_loop] at h
  | cons e rest ih =>
    cases b with
    | false => simp [wait_loop] at h
    | true =>
      refine ⟨rfl, ?_⟩
      rw [wait_loop] at h
      by_cases hi : e.interrupted = true
      · rw [if_pos hi] at h
        exact ⟨e, List.mem_cons_self e rest, hi, Option.some_injective _ h⟩
      · rw [if_neg hi] at h
        obtain ⟨-, e', he', hint, hbusy⟩ := ih _ h
        exact ⟨e', List.mem_cons_of_mem e he', hint, hbusy⟩

lemma scan_ok_of_forall (chunks dir_num : Nat) :
    ∀ (files : List (List Char)),
      (∀ f ∈ files, NameOk chunks dir_num f) →
      set_present_from_directory chunks dir_num files =
        .ok (files.map fun f => (parse_u64 f).getD 0)
  | [], _ => rfl
  | f :: rest, h => by
    obtain ⟨c, hc, hle, hdir⟩ := h f (List.mem_cons_self f rest)
    have ih := scan_ok_of_forall chunks dir_num rest
      (fun g hg => h g (List.mem_cons_of_mem f hg))
    simp only [set_present_from_directory, hc, ih, List.map_cons]
    rw [if_neg (by push_neg; exact ⟨hle, hdir⟩)]
    simp [hc]

lemma scan_err_of_bad (chunks dir_num : Nat) :
    ∀ (files : List (List Char)),
      (∃ f ∈ files, ¬ NameOk chunks dir_num f) →
      set_present_from_directory chunks dir_num files = .error .invalidCache
  | [], ⟨g, hg, _⟩ => absurd hg (List.not_mem_nil g)
  | f :: rest, ⟨g, hg, hbad⟩ => by
    rw [set_present_from_directory]
    rcases List.mem_cons.1 hg with rfl | hgr
    · split
      · rfl
      · next c hp =>
        have hcond : chunks < c ∨ dir_num ≠ get_dir_num c := by
          by_contra hno
          push_neg at hno
          exact hbad ⟨c, hp, hno.1, hno.2⟩
        rw [if_pos hcond]
    · split
      · rfl
      · next c hp =>
        by_cases hcond : chunks < c ∨ dir_num ≠ get_dir_num c
        · rw [if_pos hcond]
        · rw [if_neg hcond,
            scan_err_of_bad chunks dir_num rest ⟨g, hgr, hbad⟩]

lemma transport_fetch_iter_spec (attempt : Nat → Bool × Option GErr)
    (fuel : Nat) :
    ∀ (i sleeps : Nat) (myErr : Option GErr),
      (0 < fuel ∨ 1 ≤ i) →
      ((i = 0 ∧ sleeps = 0 ∧ myErr = none) ∨
        (1 ≤ i ∧ sleeps = i - 1 ∧ myErr = some GErr.transportNetwork ∧
          ∀ j < i, attempt j = (false, some GErr.transportNetwork))) →
      1 ≤ (transport_fetch_iter attempt fuel i sleeps myErr).1 ∧
      i ≤ (transport_fetch_iter attempt fuel i sleeps myErr).1 ∧
      (transport_fetch_iter attempt fuel i sleeps myErr).1 ≤ i + fuel ∧
      (transport_fetch_iter attempt fuel i sleeps myErr).2.1 =
        (transport_fetch_iter attempt fuel i sleeps myErr).1 - 1 ∧
      (∀ j < (transport_fetch_iter attempt fuel i sleeps myErr).1 - 1,
        attempt j = (false, some GErr.transportNetwork)) ∧
      ((transport_fetch_iter attempt fuel i sleeps myErr).2.2.1 = true →
        (attempt ((transport_fetch_iter attempt fuel i sleeps myErr).1 - 1)).1
            = true ∧
        (transport_fetch_iter attempt fuel i sleeps myErr).2.2.2 = none) ∧
      ((transport_fetch_iter attempt fuel i sleeps myErr).2.2.1 = false →
        (transport_fetch_iter attempt fuel i sleeps myErr).2.2.2 =
          (attempt ((transport_fetch_iter attempt fuel i sleeps myErr).1 - 1)).2 ∧
        (attempt ((transport_fetch_iter attempt fuel i sleeps myErr).1 - 1)).1
            = false) ∧
      ((transport_fetch_iter attempt fuel i sleeps myErr).1 < i + fuel →
        ¬ (attempt ((transport_fetch_iter attempt fuel i sleeps myErr).1 - 1) =
            (false, some GErr.transportNetwork))) := by
  induction fuel with
  | zero =>
    intro i sleeps myErr hfi hinv
    rcases hinv with ⟨hi, hs, hm⟩ | ⟨hi, hs, hm, hall⟩
    · rcases hfi with hfi | hfi <;> omega
    · have hlast := hall (i - 1) (by omega)
      dsimp only [transport_fetch_iter]
      refine ⟨by omega, by omega, by omega, by omega,
        fun j hj => hall j (by omega), ?_, ?_, ?_⟩
      · intro htrue
        exact Bool.noConfusion htrue
      · intro _
        rw [hm, hlast]
        exact ⟨rfl, rfl⟩
      · intro hlt
        exact absurd hlt (Nat.lt_irrefl i)
  | succ fuel ih =>
    intro i sleeps myErr hfi hinv
    rcases hatt : attempt i with ⟨b, e⟩
    have hall' : ∀ j < i, attempt j = (false, some GErr.transportNetwork) := by
      rcases hinv with ⟨hi, _, _⟩ | ⟨_, _, _, hall⟩
      · intro j hj
        omega
      · exact hall
    have hsleeps : (if myErr.isSome then sleeps + 1 else sleeps) = i := by
      rcases hinv with ⟨hi, hs, hm⟩ | ⟨hi, hs, hm, _⟩
      · rw [hm]
        simp [hi, hs]
      · rw [hm]
        simp only [Option.isSome_some, if_pos]
        omega
    cases b with
    | true =>
      have hred : transport_fetch_iter attempt (fuel + 1) i sleeps myErr =
          (i + 1, if myErr.isSome then sleeps + 1 else sleeps, true, none) := by
        dsimp only [transport_fetch_iter]
        rw [hatt]
      rw [hred, hsleeps]
      refine ⟨by omega, by omega, by omega,
        by show (i : Nat) = i + 1 - 1; omega,
        fun j hj => hall' j (by omega), ?_, ?_, ?_⟩
      · intro _
        rw [Nat.add_sub_cancel, hatt]
        exact ⟨rfl, rfl⟩
      · intro hfalse
        exact Bool.noConfusion hfalse
      · intro _
        rw [Nat.add_sub_cancel, hatt]
        simp
    | false =>
      by_cases hnet : e = some GErr.transportNetwork
      · subst hnet
        have hred : transport_fetch_iter attempt (fuel + 1) i sleeps myErr =
            transport_fetch_iter attempt fuel (i + 1)
              (if myErr.isSome then sleeps + 1 else sleeps)
              (some GErr.transportNetwork) := by
          dsimp only [transport_fetch_iter]
          rw [hatt]
          simp
        have hall2 : ∀ j < i + 1,
            attempt j = (false, some GErr.transportNetwork) := by
          intro j hj
          rcases Nat.lt_or_ge j i with hji | hji
          · exact hall' j hji
          · have : j = i := by omega
            rw [this, hatt]
        have := ih (i + 1) (if myErr.isSome then sleeps + 1 else sleeps)
          (some GErr.transportNetwork) (Or.inr (by omega))
          (Or.inr ⟨by omega, by omega, rfl, hall2⟩)
        rw [hred]
        obtain ⟨h1, h2, h3, h4, h5, h6, h7, h8⟩ := this
        exact ⟨h1, by omega, by omega, h4, h5, h6, h7,
          fun hlt => h8 (by omega)⟩
      · have hred : transport_fetch_iter attempt (fuel + 1) i sleeps myErr =
            (i + 1, if myErr.isSome then sleeps + 1 else sleeps, false, e) := by
          dsimp only [transport_fetch_iter]
          rw [hatt]
          simp [hnet]
        rw [hred, hsleeps]
        refine ⟨by omega, by omega, by omega,
          by show (i : Nat) = i + 1 - 1; omega,
          fun j hj => hall' j (by omega), ?_, ?_, ?_⟩
        · intro htrue
          exact Bool.noConfusion htrue
        · intro _
          rw [Nat.add_sub_cancel, hatt]
          exact ⟨rfl, rfl⟩
        · intro _
          rw [Nat.add_sub_cancel, hatt]
          simp [hnet]

/-! ### Claim theorems -/

/-- Claim C2 (code bug, evaluation at the failing input): on an image of
chunk_size 8 and size 10, the read (start = 9, count = 2) straddles EOF;
its first cursor slice is chunk 1, offset 1, length 2; constrain_io clamps
the length to `size - chunk*chunk_size` = 2 instead of the 1 byte that
exists before EOF, and the chunk read fails with PREMATURE_EOF (returning
no bytes) instead of returning exactly `size - start` = 1 byte; the
request constrain_io lets through even violates ll-pristine's own
assertion `chunk*chunk_size + offset + length <= initial_size`. -/
theorem C2_straddling_read_bug :
    cursor_chunk c2_img 9 2 0 = (1, 1, 2) ∧
    constrain_io c2_img 10 1 1 2 = .ok 2 ∧
    (read_chunk_unlocked c2_img (fun a => a % 256) fresh_state 10 1 1 2).1 =
      .error IoError.prematureEof ∧
    ¬ (1 * c2_img.chunk_size + 1 + 2 ≤ c2_img.initial_size) :=
  ⟨rfl, rfl, rfl, by decide⟩

/-- Claim C3 (code bug, evaluation at the failing input): a buffered fetch
whose transfer completes with CURLE_OK but delivers 50 of the requested 100
bytes records the short-read FATAL error yet returns true, so
_vmnetfs_transport_fetch reports overall success to its caller with no
error propagated. -/
theorem C3_short_read_reports_success :
    fetch_result none CurlCode.ok 50 100 = (true, some GErr.transportFatal) ∧
    transport_fetch (fun _ => fetch_result none CurlCode.ok 50 100) =
      (1, 0, true, none) :=
  ⟨by decide, by decide⟩

/-- Claim C4, counterexample: for a one-chunk image (chunks = 1) the bucket-0
file named "1" parses to chunk index 1, which is not a valid chunk index
(not < 1), yet set_present_from_directory accepts it and sets presence
bit 1 instead of failing with INVALID_CACHE.  The trailing conjuncts pin
down the g_ascii_strtoull acceptance boundary at two more concrete names:
" +1" (whitespace and sign skipped) and "-0" (negated zero) are likewise
accepted, with presence bits 1 and 0. -/
theorem C4_counterexample :
    set_present_from_directory 1 0 [['1']] = .ok [1] ∧
    set_present_from_directory 1 0 [['1']] ≠ .error IoError.invalidCache ∧
    ¬ (1 < 1) ∧
    set_present_from_directory 1 0 [[' ', '+', '1']] = .ok [1] ∧
    set_present_from_directory 1 0 [['-', '0']] = .ok [0] :=
  ⟨rfl, fun h => Except.noConfusion h, by decide, rfl, rfl⟩

/-- Claim C4 (amended): the scan of a bucket directory sets the presence bit
for exactly the files whose name parses as a uint64 that is at most the
chunk count (the code's `chunk > chunks` test also lets the index one past
the last valid chunk through) and belongs to that bucket, and it fails with
INVALID_CACHE exactly when some file name flunks one of those checks. -/
theorem C4_scan_characterization (chunks dir_num : Nat)
    (files : List (List Char)) :
    (set_present_from_directory chunks dir_num files =
        .error IoError.invalidCache
      ↔ ∃ f ∈ files, ¬ NameOk chunks dir_num f) ∧
    (set_present_from_directory chunks dir_num files =
        .ok (files.map fun f => (parse_u64 f).getD 0)
      ↔ ∀ f ∈ files, NameOk chunks dir_num f) := by
  constructor
  · constructor
    · intro herr
      by_contra hno
      push_neg at hno
      rw [scan_ok_of_forall chunks dir_num files hno] at herr
      exact Except.noConfusion herr
    · exact scan_err_of_bad chunks dir_num files
  · constructor
    · intro hok
      by_contra hno
      push_neg at hno
      rw [scan_err_of_bad chunks dir_num files hno] at hok
      exact Except.noConfusion hok
    · exact scan_ok_of_forall chunks dir_num files

/-- Claim C10: setting bit b changes no other bit — also across a growth of
the backing store — and afterwards bit b tests true. -/
theorem C10_bit_set_frame (bits : List Nat) (b bp : Nat) (h : bp ≠ b) :
    bit_test (bit_set bits b) bp = bit_test bits bp ∧
    bit_test (bit_set bits b) b = true :=
  ⟨bit_test_bit_set_ne bits b bp h, bit_test_bit_set_self bits b⟩

/-- Witness for C10 at a concrete input: bits = [5] (bits 0 and 2 set),
setting bit 17 grows the store; bit 2 is unchanged and bit 17 becomes
set. -/
theorem C10_bit_set_frame_witness :
    bit_test (bit_set [5] 17) 2 = bit_test [5] 2 ∧
    bit_test (bit_set [5] 17) 17 = true :=
  C10_bit_set_frame [5] 17 2 (by decide)

/-- Claim C6: a buffered transport fetch makes between 1 and 5 attempts,
sleeps once before each reattempt, reattempts only after NETWORK-class
failures (every non-final attempt is a NETWORK failure — so a success or a
failure of any other class ends the loop at once, the latter propagating
that error), and conversely a NETWORK-class failure with attempts left
forces a reattempt: while every attempt up to j fails NETWORK and
j + 1 < 5, the loop makes at least j + 2 fetch calls.  A streaming fetch
is a single fetch call. -/
theorem C6_retry_policy (attempt : Nat → Bool × Option GErr) :
    1 ≤ (transport_fetch attempt).1 ∧
    (transport_fetch attempt).1 ≤ 5 ∧
    (transport_fetch attempt).2.1 = (transport_fetch attempt).1 - 1 ∧
    (∀ j < (transport_fetch attempt).1 - 1,
      attempt j = (false, some GErr.transportNetwork)) ∧
    ((transport_fetch attempt).2.2.1 = true →
      (attempt ((transport_fetch attempt).1 - 1)).1 = true ∧
      (transport_fetch attempt).2.2.2 = none) ∧
    ((transport_fetch attempt).2.2.1 = false →
      (transport_fetch attempt).2.2.2 =
        (attempt ((transport_fetch attempt).1 - 1)).2 ∧
      (attempt ((transport_fetch attempt).1 - 1)).1 = false) ∧
    (∀ j, j + 1 < 5 →
      (∀ i ≤ j, attempt i = (false, some GErr.transportNetwork)) →
      j + 2 ≤ (transport_fetch attempt).1) ∧
    transport_fetch_stream_once attempt = attempt 0 := by
  obtain ⟨h1, h2, h3, h4, h5, h6, h7, h8⟩ :=
    transport_fetch_iter_spec attempt 5 0 0 none (Or.inl (by omega))
      (Or.inl ⟨rfl, rfl, rfl⟩)
  simp only [transport_fetch]
  refine ⟨h1, by omega, h4, h5, h6, h7, ?_, rfl⟩
  intro j hj hall
  by_contra hk
  push_neg at hk
  have hne := h8 (by omega)
  exact hne (hall ((transport_fetch_iter attempt 5 0 0 none).1 - 1) (by omega))

/-- Claim C7: chunk_trylock fails only when the caller was interrupted while
the entry was still busy with another holder (so the entry existed, was busy
at entry, and some wait returned interrupted with busy still set); whenever
it succeeds the caller holds the lock (the entry is busy afterwards); and
when the first wait is interrupted but finds the lock free — the
interrupt/acquire race — the call succeeds rather than reporting the
interruption. -/
theorem C7_trylock_interrupt (entry : Option ChunkLock)
    (events : List WaitEvent) (tableSize : Nat) (wantSize : Bool)
    (ret : Bool) (post : ChunkLock) (sz : Option Nat)
    (h : chunk_trylock entry events tableSize wantSize = some (ret, post, sz)) :
    (ret = false →
      ∃ cl, entry = some cl ∧ cl.busy = true ∧
        ∃ e ∈ events, e.interrupted = true ∧ e.busyAfter = true) ∧
    (ret = true → post.busy = true) ∧
    (∀ cl rest, entry = some cl →
      events = ⟨true, false⟩ :: rest → ret = true) := by
  cases entry with
  | none =>
    have h' : some (true, (⟨true, 0⟩ : ChunkLock),
        if wantSize = true then some tableSize else none) =
        some (ret, post, sz) := h
    injection h' with h'
    injection h' with hret h'
    injection h' with hpost hsz
    refine ⟨?_, ?_, ?_⟩
    · intro hf
      rw [← hret] at hf
      exact Bool.noConfusion hf
    · intro _
      rw [← hpost]
    · intro cl rest hcl _
      exact Option.noConfusion hcl
  | some cl =>
    rcases hw : wait_loop cl.busy events with _ | busyExit
    · rw [chunk_trylock, hw] at h
      exact Option.noConfusion h
    · rw [chunk_trylock, hw] at h
      cases busyExit with
      | true =>
        have h' : some (false, (⟨true, cl.waiters⟩ : ChunkLock),
            if wantSize = true then some 0 else none) =
            some (ret, post, sz) := h
        injection h' with h'
        injection h' with hret h'
        injection h' with hpost hsz
        obtain ⟨hbusy, e, he, hint, hba⟩ := wait_loop_some_true _ _ hw
        refine ⟨?_, ?_, ?_⟩
        · intro _
          exact ⟨cl, rfl, hbusy, e, he, hint, hba⟩
        · intro htrue
          rw [← hret] at htrue
          exact Bool.noConfusion htrue
        · intro cl' rest hcl' hev
          subst hev
          rw [hbusy, wait_loop] at hw
          simp at hw
      | false =>
        have h' : some (true, (⟨true, cl.waiters⟩ : ChunkLock),
            if wantSize = true then some tableSize else none) =
            some (ret, post, sz) := h
        injection h' with h'
        injection h' with hret h'
        injection h' with hpost hsz
        refine ⟨?_, ?_, ?_⟩
        · intro hf
          rw [← hret] at hf
          exact Bool.noConfusion hf
        · intro _
          rw [← hpost]
        · intro _ _ _ _
          exact hret.symm

/-- Witness for C7 at a concrete input: the interrupt/acquire race — the
entry is busy with no other waiter, the single wait returns interrupted but
finds busy cleared; the call succeeds, the entry stays busy (now owned by
the caller) and the image size 7 is returned. -/
theorem C7_trylock_interrupt_witness :
    ((true : Bool) = false →
      ∃ cl, (some ⟨true, 0⟩ : Option ChunkLock) = some cl ∧ cl.busy = true ∧
        ∃ e ∈ [(⟨true, false⟩ : WaitEvent)],
          e.interrupted = true ∧ e.busyAfter = true) ∧
    ((true : Bool) = true → (⟨true, 0⟩ : ChunkLock).busy = true) ∧
    (∀ cl rest, (some ⟨true, 0⟩ : Option ChunkLock) = some cl →
      [(⟨true, false⟩ : WaitEvent)] = ⟨true, false⟩ :: rest →
        (true : Bool) = true) :=
  C7_trylock_interrupt (some ⟨true, 0⟩) [⟨true, false⟩] 7 true
    true ⟨true, 0⟩ (some 7) rfl

/-- Claim C8: in every reachable lock table state, every entry has busy set
or a positive waiter count (release destroys the entry when no waiters
remain and otherwise clears busy — the LockStep.release transition), so a
quiescent table (no busy entry, no waiter) is empty. -/
theorem C8_lock_table_invariant (t : LockTable) (h : LockReachable t) :
    (∀ c cl, t c = some cl → cl.busy = true ∨ 0 < cl.waiters) ∧
    ((∀ c cl, t c = some cl → cl.busy = false ∧ cl.waiters = 0) →
      ∀ c, t c = none) := by
  have hinv : ∀ c cl, t c = some cl → cl.busy = true ∨ 0 < cl.waiters := by
    induction h with
    | refl =>
      intro c cl hc
      exact Option.noConfusion hc
    | tail hsteps hstep ih =>
      intro c cl hc
      cases hstep with
      | acquireNew c' hc' =>
        rw [LockTable.update] at hc
        by_cases hcc : c = c'
        · rw [if_pos hcc] at hc
          rw [← Option.some_injective _ hc]
          exact Or.inl rfl
        · exact ih c cl (by rwa [if_neg hcc] at hc)
      | acquireIdle c' w hc' =>
        rw [LockTable.update] at hc
        by_cases hcc : c = c'
        · rw [if_pos hcc] at hc
          rw [← Option.some_injective _ hc]
          exact Or.inl rfl
        · exact ih c cl (by rwa [if_neg hcc] at hc)
      | beginWait c' w hc' =>
        rw [LockTable.update] at hc
        by_cases hcc : c = c'
        · rw [if_pos hcc] at hc
          rw [← Option.some_injective _ hc]
          exact Or.inl rfl
        · exact ih c cl (by rwa [if_neg hcc] at hc)
      | wakeAcquire c' w hc' =>
        rw [LockTable.update] at hc
        by_cases hcc : c = c'
        · rw [if_pos hcc] at hc
          rw [← Option.some_injective _ hc]
          exact Or.inl rfl
        · exact ih c cl (by rwa [if_neg hcc] at hc)
      | wakeInterrupted c' w hc' =>
        rw [LockTable.update] at hc
        by_cases hcc : c = c'
        · rw [if_pos hcc] at hc
          rw [← Option.some_injective _ hc]
          exact Or.inl rfl
        · exact ih c cl (by rwa [if_neg hcc] at hc)
      | release c' cl' hc' =>
        rw [LockTable.update] at hc
        by_cases hcc : c = c'
        · rw [if_pos hcc] at hc
          by_cases hw : cl'.waiters = 0
          · rw [if_pos hw] at hc
            exact Option.noConfusion hc
          · rw [if_neg hw] at hc
            rw [← Option.some_injective _ hc]
            exact Or.inr (by simpa using Nat.pos_of_ne_zero hw)
        · exact ih c cl (by rwa [if_neg hcc] at hc)
  refine ⟨hinv, ?_⟩
  intro hq c
  rcases ht : t c with _ | cl
  · rfl
  · rcases hinv c cl ht with hb | hw
    · rcases hq c cl ht with ⟨hb', -⟩
      rw [hb] at hb'
      exact Bool.noConfusion hb'
    · rcases hq c cl ht with ⟨-, hw'⟩
      omega

/-- Witness for C8 at a concrete input: the empty table is reachable and
quiescent, and indeed empty. -/
theorem C8_lock_table_invariant_witness :
    (∀ c cl, (fun _ => none : LockTable) c = some cl →
      cl.busy = true ∨ 0 < cl.waiters) ∧
    ((∀ c cl, (fun _ => none : LockTable) c = some cl →
      cl.busy = false ∧ cl.waiters = 0) →
      ∀ c, (fun _ => none : LockTable) c = none) :=
  C8_lock_table_invariant (fun _ => none) Relation.ReflTransGen.refl

/-- Claim C9, counterexample: the subscription snapshot is not atomic with
the tail publish.  Execution: _vmnetfs_bit_set(0) updates the bits and
releases the map lock (mark), a subscriber then snapshots — and receives
"0" — before the setter's pending stream_group_write runs (subscribe), and
the publish then delivers "0" to that same stream again (publish).  The
subscriber's stream emits bit 0 twice, refuting "every set bit reported
exactly once". -/
theorem C9_counterexample :
    ¬ (∀ s, BitReachable s → ∀ strm ∈ s.streams, ∀ b, strm.count b ≤ 1) := by
  intro hclaim
  have h1 : BitStep ⟨[], [], []⟩ ⟨[1, 0], [0], []⟩ :=
    BitStep.mark ⟨[], [], []⟩ 0 (by decide)
  have h2 : BitStep ⟨[1, 0], [0], []⟩ ⟨[1, 0], [0], [[0]]⟩ :=
    BitStep.subscribe ⟨[1, 0], [0], []⟩
  have h3 : BitStep ⟨[1, 0], [0], [[0]]⟩ ⟨[1, 0], [], [[0, 0]]⟩ :=
    BitStep.publish ⟨[1, 0], [0], [[0]]⟩ 0 (by decide)
  have hreach : BitReachable ⟨[1, 0], [], [[0, 0]]⟩ :=
    Relation.ReflTransGen.tail (Relation.ReflTransGen.tail
      (Relation.ReflTransGen.tail Relation.ReflTransGen.refl h1) h2) h3
  have hcount := hclaim ⟨[1, 0], [], [[0, 0]]⟩ hreach [0, 0]
    (List.mem_cons_self _ _) 0
  exact absurd hcount (by decide)

/-- Claim C9 (amended): no set bit is ever missed — every bit set in the
bitmap is, for every subscriber, either already emitted on its stream or
still awaiting its pending publish; in particular once no publish is
pending, every subscriber's stream carries every set bit at least once.
(Exactly-once fails: see the counterexample.) -/
theorem C9_stream_no_miss (s : BitmapSys) (h : BitReachable s) :
    (∀ strm ∈ s.streams, ∀ b, bit_test s.bits b = true →
      b ∈ strm ∨ b ∈ s.pending) ∧
    (s.pending = [] → ∀ strm ∈ s.streams, ∀ b, bit_test s.bits b = true →
      b ∈ strm) := by
  have hinv : ∀ strm ∈ s.streams, ∀ b, bit_test s.bits b = true →
      b ∈ strm ∨ b ∈ s.pending := by
    induction h with
    | refl =>
      intro strm hstrm
      exact absurd hstrm (List.not_mem_nil _)
    | @tail t u hsteps hstep ih =>
      cases hstep with
      | mark b hb =>
        intro strm hstrm bp hbp
        by_cases hbb : bp = b
        · subst hbb
          exact Or.inr (List.mem_cons_self _ _)
        · rw [bit_test_bit_set_ne t.bits b bp hbb] at hbp
          rcases ih strm hstrm bp hbp with hmem | hpend
          · exact Or.inl hmem
          · exact Or.inr (List.mem_cons_of_mem _ hpend)
      | markOld b hb =>
        intro strm hstrm bp hbp
        by_cases hbb : bp = b
        · subst hbb
          exact ih strm hstrm bp hb
        · rw [bit_test_bit_set_ne t.bits b bp hbb] at hbp
          exact ih strm hstrm bp hbp
      | publish b hb =>
        intro strm hstrm bp hbp
        obtain ⟨strm0, hstrm0, rfl⟩ := List.mem_map.1 hstrm
        rcases ih strm0 hstrm0 bp hbp with hmem | hpend
        · exact Or.inl (List.mem_append_left _ hmem)
        · by_cases hbb : bp = b
          · subst hbb
            exact Or.inl (List.mem_append_right _ (List.mem_singleton.2 rfl))
          · exact Or.inr ((List.mem_erase_of_ne hbb).2 hpend)
      | subscribe =>
        intro strm hstrm bp hbp
        rcases List.mem_cons.1 hstrm with rfl | hmem
        · exact Or.inl (bit_test_true_mem_snapshot _ _ hbp)
        · exact ih strm hmem bp hbp
  refine ⟨hinv, ?_⟩
  intro hpend strm hstrm b hb
  rcases hinv strm hstrm b hb with hmem | hp
  · exact hmem
  · rw [hpend] at hp
    exact absurd hp (List.not_mem_nil _)

/-- Witness for C9 at a concrete input: the duplicate-emission state
reached in the counterexample still misses nothing — with no publish
pending, its one subscriber's stream [0, 0] carries every set bit of
[1, 0]. -/
theorem C9_stream_no_miss_witness :
    (∀ strm ∈ [[0, 0]], ∀ b, bit_test [1, 0] b = true →
      b ∈ strm ∨ b ∈ ([] : List Nat)) ∧
    (([] : List Nat) = [] → ∀ strm ∈ [[0, 0]], ∀ b,
      bit_test [1, 0] b = true → b ∈ strm) :=
  C9_stream_no_miss ⟨[1, 0], [], [[0, 0]]⟩
    (Relation.ReflTransGen.tail (Relation.ReflTransGen.tail
      (Relation.ReflTransGen.tail Relation.ReflTransGen.refl
        (BitStep.mark ⟨[], [], []⟩ 0 (by decide)))
      (BitStep.subscribe ⟨[1, 0], [0], []⟩))
      (BitStep.publish ⟨[1, 0], [0], [[0]]⟩ 0 (by decide)))

lemma read_after_overlay_write (img : Image) (s s2 : IoState)
    (data : List Nat) (chunk offset length : Nat)
    (hdata : data.length = length)
    (hov : s2.overlay =
      (ll_modified_write_chunk img s data chunk offset length).overlay) :
    ll_modified_read_chunk img s2 chunk offset length = data := by
  subst hdata
  rw [ll_modified_read_chunk, hov]
  have hcongr : ∀ i ∈ List.range data.length,
      (ll_modified_write_chunk img s data chunk offset data.length).overlay
        (chunk * img.chunk_size + offset + i) = data.getD i 0 := by
    intro i hi
    rw [List.mem_range] at hi
    simp only [ll_modified_write_chunk]
    rw [if_pos ⟨by omega, by omega⟩]
    congr 1
    omega
  rw [List.map_congr_left hcongr, map_getD_range]

@[simp] lemma setAccessed_modified (s : IoState) (c : Nat) :
    (s.setAccessed c).modified = s.modified := rfl

@[simp] lemma setAccessed_present (s : IoState) (c : Nat) :
    (s.setAccessed c).present = s.present := rfl

@[simp] lemma setAccessed_pristineFile (s : IoState) (c : Nat) :
    (s.setAccessed c).pristineFile = s.pristineFile := rfl

@[simp] lemma setAccessed_overlay (s : IoState) (c : Nat) :
    (s.setAccessed c).overlay = s.overlay := rfl

@[simp] lemma setAccessed_accessed_self (s : IoState) (c : Nat) :
    (s.setAccessed c).accessed c = true := by
  simp [IoState.setAccessed]

@[simp] lemma pristine_write_file_self (s : IoState) (data : List Nat)
    (chunk : Nat) :
    (ll_pristine_write_chunk s data chunk).pristineFile chunk = data := by
  simp [ll_pristine_write_chunk]

@[simp] lemma pristine_write_present_self (s : IoState) (data : List Nat)
    (chunk : Nat) :
    (ll_pristine_write_chunk s data chunk).present chunk = true := by
  simp [ll_pristine_write_chunk]

@[simp] lemma pristine_write_modified (s : IoState) (data : List Nat)
    (chunk : Nat) :
    (ll_pristine_write_chunk s data chunk).modified = s.modified := rfl

@[simp] lemma pristine_write_overlay (s : IoState) (data : List Nat)
    (chunk : Nat) :
    (ll_pristine_write_chunk s data chunk).overlay = s.overlay := rfl

@[simp] lemma pristine_write_accessed (s : IoState) (data : List Nat)
    (chunk : Nat) :
    (ll_pristine_write_chunk s data chunk).accessed = s.accessed := rfl

@[simp] lemma modified_write_modified_self (img : Image) (s : IoState)
    (data : List Nat) (chunk offset length : Nat) :
    (ll_modified_write_chunk img s data chunk offset length).modified chunk =
      true := by
  simp [ll_modified_write_chunk]

@[simp] lemma fetch_data_length (origin : Nat → Nat) (start count : Nat) :
    (fetch_data origin start count).length = count := by
  simp [fetch_data]

lemma read_chunk_unlocked_full_ok (img : Image) (origin : Nat → Nat)
    (s : IoState) (image_size chunk : Nat)
    (hcs : chunk * img.chunk_size < image_size)
    (hwf : s.present chunk = true →
      min (image_size - chunk * img.chunk_size) img.chunk_size ≤
        (s.pristineFile chunk).length)
    (hm : s.modified chunk = false) :
    ∃ buf s2,
      read_chunk_unlocked img origin s image_size chunk 0
          (min (image_size - chunk * img.chunk_size) img.chunk_size) =
        (.ok buf, s2) ∧
      s2.modified = s.modified ∧ s2.overlay = s.overlay ∧
      s2.chunk_dirties = s.chunk_dirties := by
  have hcon : constrain_io img image_size chunk 0
      (min (image_size - chunk * img.chunk_size) img.chunk_size) =
      .ok (min (image_size - chunk * img.chunk_size) img.chunk_size) := by
    rw [constrain_io, if_neg (by omega)]
    congr 1
    omega
  by_cases hp : s.present chunk = true
  · refine ⟨((s.pristineFile chunk).drop 0).take
        (min (image_size - chunk * img.chunk_size) img.chunk_size),
      s.setAccessed chunk, ?_, rfl, rfl, rfl⟩
    simp only [read_chunk_unlocked, hcon]
    rw [if_neg (by simp [hm]), if_pos (by simp [hp]),
      ll_pristine_read_chunk, if_pos (by simpa using hwf hp)]
    rfl
  · have hpf : s.present chunk = false := by
      revert hp
      cases s.present chunk <;> simp
    refine ⟨((fetch_data origin (chunk * img.chunk_size)
        (min (image_size - chunk * img.chunk_size) img.chunk_size)).drop 0).take
        (min (image_size - chunk * img.chunk_size) img.chunk_size),
      ll_pristine_write_chunk
        { s.setAccessed chunk with
            chunk_fetches := (s.setAccessed chunk).chunk_fetches + 1 }
        (fetch_data origin (chunk * img.chunk_size)
          (min (image_size - chunk * img.chunk_size) img.chunk_size)) chunk,
      ?_, rfl, rfl, rfl⟩
    simp only [read_chunk_unlocked, hcon]
    rw [if_neg (by simp [hm]), if_neg (by simp [hpf]),
      ll_pristine_read_chunk, pristine_write_file_self,
      if_pos (by simp)]

/-- Claim C1: read_chunk_unlocked's dispatch for an in-range read
(chunk*chunk_size + offset < image_size, offsets within the chunk as the
function's asserts demand).  With the clamped length
len = min(image_size - chunk*chunk_size, length): if the chunk is modified
the result is exactly the overlay read and the only state change is the
accessed bit; else if present, the result is exactly the pristine-store
read with the same sole state change; else the engine reaches a state s2
whose pristine file for the chunk holds the transport-fetched bytes of the
whole chunk, whose presence bit is set, whose chunk_fetches counter is one
higher — overlay, modified map and chunk_dirties untouched — and only then
is the result served as the pristine-store read in s2. -/
theorem C1_read_dispatch (img : Image) (origin : Nat → Nat) (s : IoState)
    (image_size chunk offset length : Nat)
    (hin : chunk * img.chunk_size + offset < image_size)
    (hoff : offset < img.chunk_size)
    (hlen : offset + length ≤ img.chunk_size) :
    (s.modified chunk = true →
      read_chunk_unlocked img origin s image_size chunk offset length =
        (.ok (ll_modified_read_chunk img s chunk offset
          (min (image_size - chunk * img.chunk_size) length)),
         s.setAccessed chunk)) ∧
    (s.modified chunk = false → s.present chunk = true →
      read_chunk_unlocked img origin s image_size chunk offset length =
        (ll_pristine_read_chunk s chunk offset
          (min (image_size - chunk * img.chunk_size) length),
         s.setAccessed chunk)) ∧
    (s.modified chunk = false → s.present chunk = false →
      ∃ s2,
        read_chunk_unlocked img origin s image_size chunk offset length =
          (ll_pristine_read_chunk s2 chunk offset
            (min (image_size - chunk * img.chunk_size) length), s2) ∧
        s2.present chunk = true ∧
        s2.pristineFile chunk =
          fetch_data origin (chunk * img.chunk_size)
            (min (image_size - chunk * img.chunk_size) img.chunk_size) ∧
        s2.chunk_fetches = s.chunk_fetches + 1 ∧
        s2.chunk_dirties = s.chunk_dirties ∧
        s2.modified = s.modified ∧
        s2.overlay = s.overlay ∧
        s2.accessed chunk = true) := by
  have hcon : constrain_io img image_size chunk offset length =
      .ok (min (image_size - chunk * img.chunk_size) length) := by
    rw [constrain_io, if_neg (by omega)]
  refine ⟨?_, ?_, ?_⟩
  · intro hm
    simp only [read_chunk_unlocked, hcon]
    rw [if_pos (by simp [hm])]
    rfl
  · intro hm hp
    simp only [read_chunk_unlocked, hcon]
    rw [if_neg (by simp [hm]), if_pos (by simp [hp])]
    rfl
  · intro hm hp
    refine ⟨ll_pristine_write_chunk
        { s.setAccessed chunk with
            chunk_fetches := (s.setAccessed chunk).chunk_fetches + 1 }
        (fetch_data origin (chunk * img.chunk_size)
          (min (image_size - chunk * img.chunk_size) img.chunk_size)) chunk,
      ?_, by simp, by simp, rfl, rfl, rfl, rfl, by simp⟩
    simp only [read_chunk_unlocked, hcon]
    rw [if_neg (by simp [hm]), if_neg (by simp [hp])]

/-- Witness for C1 at a concrete input: image of chunk_size 4 and size 8,
fresh state (clean, absent chunk), identity origin, read of chunk 1, offset
1, length 2. -/
theorem C1_read_dispatch_witness :
    (fresh_state.modified 1 = true →
      read_chunk_unlocked ⟨4, 8, 0⟩ (fun a => a) fresh_state 8 1 1 2 =
        (.ok (ll_modified_read_chunk ⟨4, 8, 0⟩ fresh_state 1 1 (min (8 - 1 * 4) 2)),
         fresh_state.setAccessed 1)) ∧
    (fresh_state.modified 1 = false → fresh_state.present 1 = true →
      read_chunk_unlocked ⟨4, 8, 0⟩ (fun a => a) fresh_state 8 1 1 2 =
        (ll_pristine_read_chunk fresh_state 1 1 (min (8 - 1 * 4) 2),
         fresh_state.setAccessed 1)) ∧
    (fresh_state.modified 1 = false → fresh_state.present 1 = false →
      ∃ s2,
        read_chunk_unlocked ⟨4, 8, 0⟩ (fun a => a) fresh_state 8 1 1 2 =
          (ll_pristine_read_chunk s2 1 1 (min (8 - 1 * 4) 2), s2) ∧
        s2.present 1 = true ∧
        s2.pristineFile 1 =
          fetch_data (fun a => a) (1 * 4) (min (8 - 1 * 4) 4) ∧
        s2.chunk_fetches = fresh_state.chunk_fetches + 1 ∧
        s2.chunk_dirties = fresh_state.chunk_dirties ∧
        s2.modified = fresh_state.modified ∧
        s2.overlay = fresh_state.overlay ∧
        s2.accessed 1 = true) :=
  C1_read_dispatch ⟨4, 8, 0⟩ (fun a => a) fresh_state 8 1 1 2
    (by decide) (by decide) (by decide)

/-- Claim C5: a successful write of data D at (chunk, offset, length) inside
the image, followed by a read of the same (chunk, offset, length), returns
exactly D, whatever the chunk's previous present/modified state (the
copy-on-write materialization runs beneath, then the write lands on top;
a present chunk's cache file is assumed populated to the chunk's valid
length, spec invariant 3). -/
theorem C5_write_then_read (img : Image) (origin : Nat → Nat) (s : IoState)
    (image_size chunk offset length : Nat) (data : List Nat)
    (hdata : data.length = length)
    (hpos : 0 < length)
    (hlen : offset + length ≤ img.chunk_size)
    (hin : chunk * img.chunk_size + offset + length ≤ image_size)
    (hwf : s.present chunk = true →
      min (image_size - chunk * img.chunk_size) img.chunk_size ≤
        (s.pristineFile chunk).length) :
    ∃ s2,
      io_write_chunk_locked img origin s image_size data chunk offset length =
        (.ok (), s2) ∧
      (read_chunk_unlocked img origin s2 image_size chunk offset length).1 =
        .ok data := by
  have hcon : constrain_io img image_size chunk offset length = .ok length := by
    rw [constrain_io, if_neg (by omega)]
    congr 1
    omega
  by_cases hm : s.modified chunk = true
  · refine ⟨ll_modified_write_chunk img (s.setAccessed chunk) data chunk offset
        length, ?_, ?_⟩
    · simp only [io_write_chunk_locked, hcon]
      rw [if_pos (by simp [hm])]
    · simp only [read_chunk_unlocked, hcon]
      rw [if_pos (by simp)]
      dsimp only
      rw [read_after_overlay_write img (s.setAccessed chunk)
        ((ll_modified_write_chunk img (s.setAccessed chunk) data chunk offset
          length).setAccessed chunk) data chunk offset length hdata rfl]
  · have hmf : s.modified chunk = false := by
      revert hm
      cases s.modified chunk <;> simp
    obtain ⟨buf, s3, hread, hmod3, hov3, hdirt3⟩ :=
      read_chunk_unlocked_full_ok img origin
        { s.setAccessed chunk with
            chunk_dirties := (s.setAccessed chunk).chunk_dirties + 1 }
        image_size chunk (by omega) hwf hmf
    refine ⟨ll_modified_write_chunk img
        (ll_modified_write_chunk img s3 buf chunk 0
          (min (image_size - chunk * img.chunk_size) img.chunk_size))
        data chunk offset length, ?_, ?_⟩
    · simp only [io_write_chunk_locked, hcon]
      rw [if_neg (by simp [hmf]), hread]
    · simp only [read_chunk_unlocked, hcon]
      rw [if_pos (by simp)]
      dsimp only
      rw [read_after_overlay_write img
        (ll_modified_write_chunk img s3 buf chunk 0
          (min (image_size - chunk * img.chunk_size) img.chunk_size))
        ((ll_modified_write_chunk img
          (ll_modified_write_chunk img s3 buf chunk 0
            (min (image_size - chunk * img.chunk_size) img.chunk_size))
          data chunk offset length).setAccessed chunk)
        data chunk offset length hdata rfl]

/-- Witness for C5 at a concrete input: image of chunk_size 4 and size 8,
fresh state, identity origin; writing [170, 187] at chunk 1, offset 1,
length 2 and reading the same range back yields [170, 187]. -/
theorem C5_write_then_read_witness :
    ∃ s2,
      io_write_chunk_locked ⟨4, 8, 0⟩ (fun a => a) fresh_state 8 [170, 187]
          1 1 2 = (.ok (), s2) ∧
      (read_chunk_unlocked ⟨4, 8, 0⟩ (fun a => a) s2 8 1 1 2).1 =
        .ok [170, 187] :=
  C5_write_then_read ⟨4, 8, 0⟩ (fun a => a) fresh_state 8 1 1 2 [170, 187]
    (by decide) (by decide) (by decide) (by decide)
    (fun h => absurd h (by decide))

end Vmnetfs
